import Mathlib

/-!
Verification of the fleet-selection optimization layer of the MaritimeHack
repository against its natural-language specification.

The Python sources are shallowly embedded: pandas DataFrames of vessel records
become lists of a `Vessel` structure, money/score columns become `ℚ`, and the
external CBC MIP solver is modelled in two complementary ways.  The
post-processing that the Python code performs on a solver outcome
(`prob.status != 1` checks, extraction of selected ids) is embedded as total
functions of an arbitrary solver status, and the solve itself is idealised as
exact minimisation over the finitely many 0/1 assignments (`List.sublists`),
which is what a correct MIP solver computes for these finite binary programs.
All embedded functions are total: none of the corresponding Python code paths
contain a `raise`.
-/

namespace MaritimeHack

/-! ## Constants (src/constants.py) -/

def CARBON_PRICE : ℚ := 80

def MONTHLY_DEMAND : ℚ := 4576667

def SAFETY_THRESHOLD : ℚ := 3

/-! ## Vessel pool data contract

One row of the per-vessel DataFrame, with the columns the optimization layer
reads.  `main_engine_fuel_type` is `none` when the pandas cell is NaN
(missing); pandas `==` comparison against NaN matches nothing and `dropna`
removes such cells, which the fuel helpers below reproduce.  `carbon_cost` is
only consulted when the pool's DataFrame has that column, recorded by the
`hasCC` flag threaded through the scenario-cost functions. -/

structure Vessel where
  vessel_id : Int
  dwt : ℚ
  safety_score : ℚ
  main_engine_fuel_type : Option String
  final_cost : ℚ
  co2eq : ℚ
  carbon_cost : ℚ
deriving DecidableEq, Repr

abbrev Pool := List Vessel

def dwtSum (S : Pool) : ℚ := (S.map Vessel.dwt).sum

def costSum (S : Pool) : ℚ := (S.map Vessel.final_cost).sum

def safetySum (S : Pool) : ℚ := (S.map Vessel.safety_score).sum

def co2Sum (S : Pool) : ℚ := (S.map Vessel.co2eq).sum

/-- The per-vessel safety margin `safety_score - min_avg_safety`, summed over a
selection: the left-hand side of MILP constraint C2
(`optimization.py` lines 140 and 152). -/
def safetyDeltaSum (t : ℚ) (S : Pool) : ℚ :=
  (S.map (fun v => v.safety_score - t)).sum

/-- pandas `Series.mean()`: `none` models the NaN produced on an empty
selection (`optimization.py` line 82 reads it; NaN compares false). -/
def meanSafety (S : Pool) : Option ℚ :=
  if S.length = 0 then none else some (safetySum S / (S.length : ℚ))

/-! ## Fuel-type helpers -/

/-- pandas elementwise `==` against a fuel-type label: a NaN label (on either
side) matches nothing. -/
def fuelMatches (ft : Option String) (v : Vessel) : Bool :=
  match ft, v.main_engine_fuel_type with
  | some s, some s2 => s = s2
  | _, _ => false

/-- `df["main_engine_fuel_type"].unique()` — NaN included, as in
`optimization.py` line 156. -/
def fuelTypes (pool : Pool) : List (Option String) :=
  (pool.map Vessel.main_engine_fuel_type).dedup

/-- The fuel-diversity constraint block C3: for every fuel type in the pool,
at least one selected vessel matches it. -/
def coversFuelTypes (pool S : Pool) : Bool :=
  (fuelTypes pool).all (fun ft => S.any (fuelMatches ft))

/-! ## Exact Fleet Selector (`select_fleet_milp`, optimization.py 116-175)

A 0/1 assignment over the pool's rows selects a subset of rows; `subsetsOf`
enumerates all `2^n` assignments (first the branch with the head row
selected, then the branch without).  An assignment is feasible when it
satisfies the four constraint blocks of the MILP. -/

def subsetsOf : Pool → List Pool
  | [] => [[]]
  | v :: rest => (subsetsOf rest).map (fun S => v :: S) ++ subsetsOf rest

def milpFeasible (pool : Pool) (cargo_demand min_avg_safety : ℚ)
    (require_all_fuel_types : Bool) (co2_cap : Option ℚ) (S : Pool) : Bool :=
  decide (cargo_demand ≤ dwtSum S) &&
  decide (0 ≤ safetyDeltaSum min_avg_safety S) &&
  (!require_all_fuel_types || coversFuelTypes pool S) &&
  (match co2_cap with
   | none => true
   | some cap => decide (co2Sum S ≤ cap))

def feasibleSubsets (pool : Pool) (cargo_demand min_avg_safety : ℚ)
    (require_all_fuel_types : Bool) (co2_cap : Option ℚ) : List Pool :=
  (subsetsOf pool).filter
    (milpFeasible pool cargo_demand min_avg_safety require_all_fuel_types co2_cap)

/-- First minimum-cost candidate: the model of the solver's cost
minimisation (ties broken arbitrarily by CBC; the model keeps the first). -/
def pickMinCost : List Pool → Option Pool
  | [] => none
  | S :: rest =>
      some (rest.foldl (fun best T => if costSum T < costSum best then T else best) S)

def selectedSubset (pool : Pool) (cargo_demand min_avg_safety : ℚ)
    (require_all_fuel_types : Bool) (co2_cap : Option ℚ) : Option Pool :=
  pickMinCost
    (feasibleSubsets pool cargo_demand min_avg_safety require_all_fuel_types co2_cap)

def insertId (a : Int) : List Int → List Int
  | [] => [a]
  | b :: l => if a ≤ b then a :: b :: l else b :: insertId a l

/-- Python `sorted` on the extracted vessel ids (optimization.py 172-174). -/
def sortIds (l : List Int) : List Int := l.foldr insertId []

/-- Solver termination status of the idealised exact solve: `1` (`Optimal`)
when some assignment is feasible, `-1` (`Infeasible`) otherwise. -/
def milpStatus (pool : Pool) (cargo_demand min_avg_safety : ℚ)
    (require_all_fuel_types : Bool) (co2_cap : Option ℚ) : Int :=
  if feasibleSubsets pool cargo_demand min_avg_safety require_all_fuel_types co2_cap
      = [] then -1 else 1

/-- Ids extracted from the optimal assignment, sorted (optimization.py 172-175). -/
def milpSolution (pool : Pool) (cargo_demand min_avg_safety : ℚ)
    (require_all_fuel_types : Bool) (co2_cap : Option ℚ) : List Int :=
  match selectedSubset pool cargo_demand min_avg_safety require_all_fuel_types co2_cap with
  | none => []
  | some S => sortIds (S.map Vessel.vessel_id)

/-- Status handling of `select_fleet_milp` (optimization.py 168-175): any
status other than `1` (`Optimal`) yields the empty selection; the extracted
selection is only returned on status `1`.  Total: no exception path. -/
def milpReturn (status : Int) (selected : List Int) : List Int :=
  if status ≠ 1 then [] else selected

def select_fleet_milp (pool : Pool) (cargo_demand min_avg_safety : ℚ)
    (require_all_fuel_types : Bool) (co2_cap : Option ℚ) : List Int :=
  milpReturn
    (milpStatus pool cargo_demand min_avg_safety require_all_fuel_types co2_cap)
    (milpSolution pool cargo_demand min_avg_safety require_all_fuel_types co2_cap)

/-! ## Scenarios and the scenario cost matrix (optimization.py 20-64) -/

structure Scenario where
  name : String
  carbon_price : ℚ
  min_avg_safety : ℚ
deriving DecidableEq, Repr

/-- The original carbon-cost component: the `carbon_cost` column when the
DataFrame has one, else `CO2eq * CARBON_PRICE`
(optimization.py 39-42, sensitivity.py 450-453). -/
def originalCarbon (hasCC : Bool) (v : Vessel) : ℚ :=
  if hasCC then v.carbon_cost else v.co2eq * CARBON_PRICE

/-- One entry of `build_scenario_cost_matrix` (optimization.py 43-49):
`final_cost - carbon_cost + CO2eq * scenario_carbon_price`. -/
def scenarioCost (hasCC : Bool) (v : Vessel) (cp : ℚ) : ℚ :=
  v.final_cost - originalCarbon hasCC v + v.co2eq * cp

/-- Column sum of the cost matrix over a selected fleet, as in the robust
cost constraints and in `fleet_costs_by_scenario`. -/
def fleetScenarioCost (hasCC : Bool) (S : Pool) (s : Scenario) : ℚ :=
  (S.map (fun v => scenarioCost hasCC v s.carbon_price)).sum

/-- `df[df["vessel_id"].isin(selected_ids)]` (optimization.py 60, 75, 104). -/
def poolSubset (pool : Pool) (selected_ids : List Int) : Pool :=
  pool.filter (fun v => selected_ids.contains v.vessel_id)

/-- `fleet_costs_by_scenario` (optimization.py 53-64). -/
def fleet_costs_by_scenario (hasCC : Bool) (pool : Pool) (scen : List Scenario)
    (selected_ids : List Int) : List (String × ℚ) :=
  scen.map (fun s => (s.name, fleetScenarioCost hasCC (poolSubset pool selected_ids) s))

/-- `max(float(s["min_avg_safety"]) for s in scenarios.values())`
(optimization.py 195-197); Python `max` would raise on an empty scenario
set, so the `[]` case is junk and theorems assume a non-empty set. -/
def robustSafetyFloor : List Scenario → ℚ
  | [] => 0
  | s :: rest => rest.foldl (fun a x => max a x.min_avg_safety) s.min_avg_safety

/-- The structural constraints of the robust MILP (optimization.py 221-240):
DWT demand, the single linearised safety constraint at the strictest floor,
and fuel diversity. -/
def robustStructOk (pool : Pool) (scen : List Scenario) (cargo_demand : ℚ)
    (require_all_fuel_types : Bool) (S : Pool) : Bool :=
  decide (cargo_demand ≤ dwtSum S) &&
  decide (0 ≤ safetyDeltaSum (robustSafetyFloor scen) S) &&
  (!require_all_fuel_types || coversFuelTypes pool S)

/-- A feasible point of the robust MILP `select_fleet_minmax_milp`
(optimization.py 206-240): a 0/1 assignment (sublist) satisfying the
structural constraints, together with `Z ≥ 0` (the solver variable
`LpVariable("Z", 0, None)`) dominating every scenario's fleet cost. -/
def RobustFeasible (hasCC : Bool) (pool : Pool) (scen : List Scenario)
    (cargo_demand : ℚ) (require_all_fuel_types : Bool) (S : Pool) (Z : ℚ) : Prop :=
  S ∈ subsetsOf pool ∧
  robustStructOk pool scen cargo_demand require_all_fuel_types S = true ∧
  0 ≤ Z ∧
  ∀ s ∈ scen, fleetScenarioCost hasCC S s ≤ Z

/-- An optimal outcome of the robust MILP: feasible, with minimal objective
`Z` among all feasible points.  This is what a correct MIP solver returns on
status `Optimal`. -/
def IsOptimalRobust (hasCC : Bool) (pool : Pool) (scen : List Scenario)
    (cargo_demand : ℚ) (require_all_fuel_types : Bool) (S : Pool) (Z : ℚ) : Prop :=
  RobustFeasible hasCC pool scen cargo_demand require_all_fuel_types S Z ∧
  ∀ S' Z', RobustFeasible hasCC pool scen cargo_demand require_all_fuel_types S' Z' →
    Z ≤ Z'

/-- Maximum over scenarios of the selected fleet's scenario cost; junk `0`
for the empty scenario set (Python `max` would raise there). -/
def worstScenarioCost (hasCC : Bool) (S : Pool) : List Scenario → ℚ
  | [] => 0
  | s :: rest =>
      rest.foldl (fun a x => max a (fleetScenarioCost hasCC S x))
        (fleetScenarioCost hasCC S s)

/-- Status handling of `select_fleet_minmax_milp` (optimization.py 242-251):
any status other than `1` yields `([], none)`.  Total: no exception path. -/
def minmaxReturn (status : Int) (selected : List Int) (zval : Option ℚ) :
    List Int × Option ℚ :=
  if status ≠ 1 then ([], none) else (selected, zval)

/-! ## Validator (`validate_fleet`, optimization.py 67-93)

The source builds the error list with three independent checks and returns
`(len(errors) == 0, errors)`.  No code path raises: ids absent from the pool
simply fail to match in `isin`, and the pandas mean of the resulting empty
subset is NaN, which compares false against the threshold. -/

def capacityViolated (pool : Pool) (selected_ids : List Int) (demand : ℚ) : Bool :=
  decide (dwtSum (poolSubset pool selected_ids) < demand)

def safetyViolated (pool : Pool) (selected_ids : List Int) (min_avg_safety : ℚ) : Bool :=
  match meanSafety (poolSubset pool selected_ids) with
  | none => false
  | some m => decide (m < min_avg_safety)

/-- `dropna().unique()` on the fuel-type column of a frame. -/
def presentFuelTypes (S : Pool) : List String :=
  (S.filterMap Vessel.main_engine_fuel_type).dedup

/-- `all_types - selected_types` (optimization.py 87-89). -/
def missingFuelTypes (pool : Pool) (selected_ids : List Int) : List String :=
  (presentFuelTypes pool).filter
    (fun f => !(presentFuelTypes (poolSubset pool selected_ids)).contains f)

def fuelViolated (pool : Pool) (selected_ids : List Int) : Bool :=
  !(missingFuelTypes pool selected_ids).isEmpty

def validate_fleet (pool : Pool) (selected_ids : List Int)
    (cargo_demand_tonnes min_avg_safety : ℚ) (require_all_fuel_types : Bool) :
    Bool × List String :=
  let subset := poolSubset pool selected_ids
  let errors : List String :=
    (if capacityViolated pool selected_ids cargo_demand_tonnes then
      ["Combined DWT " ++ toString (dwtSum subset) ++ " < demand "
        ++ toString cargo_demand_tonnes]
     else []) ++
    (if safetyViolated pool selected_ids min_avg_safety then
      ["Average safety score below " ++ toString min_avg_safety]
     else []) ++
    (if require_all_fuel_types && fuelViolated pool selected_ids then
      ["Missing main_engine_fuel_type: "
        ++ toString (missingFuelTypes pool selected_ids)]
     else [])
  (errors.isEmpty, errors)

/-! ## CLI post-solve flow (`run.py` main, lines 215-244)

`main` exits with code 1 when the selector returns the empty (infeasible)
selection; otherwise it validates the returned fleet with diversity
required, prints PASS/FAIL with the violation messages, and continues to
report the selection and its metrics regardless of the validation outcome. -/

inductive RunOutcome where
  | exited (code : Nat)
  | reported (selected_ids : List Int) (ok : Bool) (errors : List String)
deriving DecidableEq

def RunOutcome.isExit : RunOutcome → Bool
  | .exited _ => true
  | .reported _ _ _ => false

/-- Post-solve handling of `run.py` main, as a function of the selection the
solver call returned. -/
def mainPostSolve (pool : Pool) (cargo_demand safety_threshold : ℚ)
    (selected_ids : List Int) : RunOutcome :=
  if selected_ids.isEmpty then .exited 1
  else
    let r := validate_fleet pool selected_ids cargo_demand safety_threshold true
    .reported selected_ids r.1 r.2

/-! ## Carbon-price sweep (`run_carbon_price_sweep`, sensitivity.py 425-495)

Each sweep point copies the base pool, replaces the embedded carbon-cost
component of `final_cost` with `CO2eq * new_price`, and re-solves the MILP
with the default diversity requirement and no emissions cap.  The base pool
is an immutable value here; the sweep maps over it afresh at every price. -/

def adjustFinalCost (hasCC : Bool) (cp : ℚ) (v : Vessel) : Vessel :=
  { v with final_cost := v.final_cost - originalCarbon hasCC v + v.co2eq * cp }

def adjustPool (hasCC : Bool) (cp : ℚ) (pool : Pool) : Pool :=
  pool.map (adjustFinalCost hasCC cp)

def run_carbon_price_sweep (hasCC : Bool) (pool : Pool) (carbon_prices : List ℚ)
    (cargo_demand safety_threshold : ℚ) : List (ℚ × List Int) :=
  carbon_prices.map (fun cp =>
    (cp, select_fleet_milp (adjustPool hasCC cp pool) cargo_demand safety_threshold
          true none))

/-! ## Pareto shadow-carbon-price pass (`run_pareto_sweep`, sensitivity.py 234-247)

A sweep result row, reduced to the fields the shadow-price pass reads and
writes.  The sweep constructs every row with `shadow_carbon_price = None`
(sensitivity.py 218 and 231) before the pass runs. -/

structure ParetoPoint where
  feasible : Bool
  total_cost_usd : ℚ
  total_co2e_tonnes : ℚ
  shadow_carbon_price : Option ℚ
deriving DecidableEq, Repr

/-- The imperative pass of sensitivity.py 235-247: walk the rows keeping the
previous feasible row; on a feasible row with a predecessor, set the shadow
price to `cost_increase / co2_reduction` when the reduction is positive and
to `None` otherwise. -/
def shadowPass (prev : Option ParetoPoint) : List ParetoPoint → List ParetoPoint
  | [] => []
  | p :: rest =>
    if p.feasible then
      match prev with
      | none => p :: shadowPass (some p) rest
      | some q =>
        let co2_reduction := q.total_co2e_tonnes - p.total_co2e_tonnes
        let cost_increase := p.total_cost_usd - q.total_cost_usd
        let p' := { p with shadow_carbon_price :=
          if 0 < co2_reduction then some (cost_increase / co2_reduction) else none }
        p' :: shadowPass (some p') rest
    else
      p :: shadowPass prev rest

/-- The last feasible point of a list, if any. -/
def lastFeasible : List ParetoPoint → Option ParetoPoint
  | [] => none
  | p :: l => if p.feasible then some ((lastFeasible l).getD p) else lastFeasible l

/-- The specification's description of the shadow price of row `i`: `none` on
an infeasible row (left untouched) and on the first feasible row; on a later
feasible row, `Δcost / Δemissions_reduction` relative to the previous
feasible row exactly when that reduction is strictly positive, else `none`. -/
def shadowSpecAt (points : List ParetoPoint) (i : ℕ) : Option ℚ :=
  match points[i]? with
  | none => none
  | some p =>
    if p.feasible then
      match lastFeasible (points.take i) with
      | none => none
      | some q =>
        let red := q.total_co2e_tonnes - p.total_co2e_tonnes
        if 0 < red then some ((p.total_cost_usd - q.total_cost_usd) / red) else none
    else p.shadow_carbon_price

/-- Generalisation of `shadowSpecAt` carrying the `(co2, cost)` pair of a
feasible row preceding the list, used to run the induction behind the
equivalence proof. -/
def shadowSpecAtG (prev : Option (ℚ × ℚ)) (points : List ParetoPoint) (i : ℕ) :
    Option ℚ :=
  match points[i]? with
  | none => none
  | some p =>
    if p.feasible then
      match
        (match lastFeasible (points.take i) with
         | some q => some (q.total_co2e_tonnes, q.total_cost_usd)
         | none => prev) with
      | none => none
      | some qc =>
        if 0 < qc.1 - p.total_co2e_tonnes then
          some ((p.total_cost_usd - qc.2) / (qc.1 - p.total_co2e_tonnes))
        else none
    else p.shadow_carbon_price

/-! ## Concrete fixtures used by witnesses and counterexamples -/

/-- A vessel whose scenario-adjusted cost is negative at carbon price 0:
`final_cost - carbon_cost + CO2eq * 0 = 5 - 15 + 0 = -10`. -/
def vNeg : Vessel := ⟨1, 100, 5, some "LNG", 5, 1, 15⟩

def cePool : Pool := [vNeg]

def ceScen : List Scenario := [⟨"zero_price", 0, 3⟩]

def vA : Vessel := ⟨1, 100, 4, some "LNG", 10, 1, 2⟩

def vB : Vessel := ⟨2, 200, 2, some "Methanol", 7, 2, 3⟩

def c5Pool : Pool := [vA, vB]

def scen2 : List Scenario := [⟨"base", 80, 3⟩, ⟨"stress", 160, 4⟩]

/-- Four Pareto sweep rows as constructed by `run_pareto_sweep` (all shadow
prices `None`): one feasible, one infeasible, then two feasible rows with
and without an emissions reduction over the previous feasible row. -/
def c8Pts : List ParetoPoint :=
  [⟨true, 100, 50, none⟩, ⟨false, 0, 0, none⟩,
   ⟨true, 120, 40, none⟩, ⟨true, 125, 40, none⟩]

/-! ## Helper lemmas -/

theorem safetyDeltaSum_eq (t : ℚ) (S : Pool) :
    safetyDeltaSum t S = safetySum S - (S.length : ℚ) * t := by
  induction S with
  | nil => simp [safetyDeltaSum, safetySum]
  | cons v rest ih =>
      simp only [safetyDeltaSum, safetySum, List.map_cons, List.sum_cons,
        List.length_cons] at *
      rw [ih]
      push_cast
      ring

/-- The algebraic core of the linearisation: for a non-empty selection, the
summed safety margins are non-negative iff the mean safety clears the
threshold. -/
theorem deltaSum_nonneg_iff_mean_ge (t : ℚ) (S : Pool) (h : S ≠ []) :
    0 ≤ safetyDeltaSum t S ↔ t ≤ safetySum S / (S.length : ℚ) := by
  have hn : 0 < (S.length : ℚ) := by
    have : 0 < S.length := List.length_pos.2 h
    exact_mod_cast this
  rw [safetyDeltaSum_eq, le_div_iff₀ hn, sub_nonneg, mul_comm]

theorem meanSafety_of_ne_nil (S : Pool) (h : S ≠ []) :
    meanSafety S = some (safetySum S / (S.length : ℚ)) := by
  have : S.length ≠ 0 := fun hl => h (List.length_eq_zero.1 hl)
  simp [meanSafety, this]

theorem le_foldl_max_init (l : List ℚ) (a : ℚ) : a ≤ l.foldl max a := by
  induction l generalizing a with
  | nil => simp
  | cons x rest ih => exact le_trans (le_max_left a x) (ih (max a x))

theorem le_foldl_max_of_mem {l : List ℚ} {b : ℚ} (hb : b ∈ l) (a : ℚ) :
    b ≤ l.foldl max a := by
  induction l generalizing a with
  | nil => cases hb
  | cons x rest ih =>
      rcases List.mem_cons.1 hb with h | h
      · subst h
        exact le_trans (le_max_right a b) (le_foldl_max_init rest (max a b))
      · exact ih h (max a x)

theorem foldl_max_le {l : List ℚ} {a b : ℚ} (ha : a ≤ b)
    (hl : ∀ x ∈ l, x ≤ b) : l.foldl max a ≤ b := by
  induction l generalizing a with
  | nil => simpa using ha
  | cons x rest ih =>
      exact ih (max_le ha (hl x (List.mem_cons_self x rest)))
        (fun y hy => hl y (List.mem_cons_of_mem x hy))

theorem robustSafetyFloor_ge {scen : List Scenario} {s : Scenario} (hs : s ∈ scen) :
    s.min_avg_safety ≤ robustSafetyFloor scen := by
  cases scen with
  | nil => cases hs
  | cons s0 rest =>
      rw [robustSafetyFloor, ← List.foldl_map]
      rcases List.mem_cons.1 hs with h | h
      · subst h; exact le_foldl_max_init _ _
      · exact le_foldl_max_of_mem (List.mem_map_of_mem Scenario.min_avg_safety h) _

theorem worstScenarioCost_ge (hasCC : Bool) (S : Pool) {scen : List Scenario}
    {s : Scenario} (hs : s ∈ scen) :
    fleetScenarioCost hasCC S s ≤ worstScenarioCost hasCC S scen := by
  cases scen with
  | nil => cases hs
  | cons s0 rest =>
      rw [worstScenarioCost, ← List.foldl_map]
      rcases List.mem_cons.1 hs with h | h
      · subst h; exact le_foldl_max_init _ _
      · exact le_foldl_max_of_mem
          (List.mem_map_of_mem (fun x => fleetScenarioCost hasCC S x) h) _

theorem worstScenarioCost_le (hasCC : Bool) (S : Pool) {scen : List Scenario}
    {b : ℚ} (hne : scen ≠ []) (hb : ∀ s ∈ scen, fleetScenarioCost hasCC S s ≤ b) :
    worstScenarioCost hasCC S scen ≤ b := by
  cases scen with
  | nil => exact absurd rfl hne
  | cons s0 rest =>
      rw [worstScenarioCost, ← List.foldl_map]
      refine foldl_max_le (hb s0 (List.mem_cons_self s0 rest)) ?_
      intro x hx
      rcases List.mem_map.1 hx with ⟨s, hs, rfl⟩
      exact hb s (List.mem_cons_of_mem s0 hs)

theorem costSum_nonneg {S : Pool} (h : ∀ v ∈ S, 0 ≤ v.final_cost) :
    0 ≤ costSum S := by
  induction S with
  | nil => simp [costSum]
  | cons v rest ih =>
      simp only [costSum, List.map_cons, List.sum_cons]
      have h1 := h v (List.mem_cons_self v rest)
      have h2 := ih (fun w hw => h w (List.mem_cons_of_mem v hw))
      simp only [costSum] at h2
      linarith

theorem costSum_pos {S : Pool} (h : ∀ v ∈ S, 0 < v.final_cost) (hne : S ≠ []) :
    0 < costSum S := by
  cases S with
  | nil => exact absurd rfl hne
  | cons v rest =>
      simp only [costSum, List.map_cons, List.sum_cons]
      have h1 := h v (List.mem_cons_self v rest)
      have h2 : 0 ≤ costSum rest :=
        costSum_nonneg (fun w hw => le_of_lt (h w (List.mem_cons_of_mem v hw)))
      simp only [costSum] at h2
      linarith

theorem pickMinCost_foldl (S : Pool) (l : List Pool) :
    (l.foldl (fun best T => if costSum T < costSum best then T else best) S = S ∨
      l.foldl (fun best T => if costSum T < costSum best then T else best) S ∈ l) ∧
    costSum (l.foldl (fun best T => if costSum T < costSum best then T else best) S)
      ≤ costSum S ∧
    ∀ T ∈ l,
      costSum (l.foldl (fun best T => if costSum T < costSum best then T else best) S)
        ≤ costSum T := by
  induction l generalizing S with
  | nil =>
      refine ⟨Or.inl rfl, le_refl _, ?_⟩
      intro T hT
      cases hT
  | cons U rest ih =>
      simp only [List.foldl_cons]
      obtain ⟨hmem, hle, hall⟩ := ih (if costSum U < costSum S then U else S)
      have hcase : costSum (if costSum U < costSum S then U else S) ≤ costSum S ∧
          costSum (if costSum U < costSum S then U else S) ≤ costSum U := by
        by_cases hc : costSum U < costSum S
        · simp only [if_pos hc]; exact ⟨le_of_lt hc, le_refl _⟩
        · simp only [if_neg hc]; exact ⟨le_refl _, le_of_not_lt hc⟩
      refine ⟨?_, le_trans hle hcase.1, ?_⟩
      · rcases hmem with h | h
        · rw [h]
          by_cases hc : costSum U < costSum S
          · rw [if_pos hc]; exact Or.inr (List.mem_cons_self U rest)
          · rw [if_neg hc]; exact Or.inl rfl
        · exact Or.inr (List.mem_cons_of_mem U h)
      · intro T hT
        rcases List.mem_cons.1 hT with h | h
        · subst h; exact le_trans hle hcase.2
        · exact hall T h

theorem pickMinCost_correct {l : List Pool} {S : Pool} (h : pickMinCost l = some S) :
    S ∈ l ∧ ∀ T ∈ l, costSum S ≤ costSum T := by
  cases l with
  | nil => cases h
  | cons U rest =>
      simp only [pickMinCost, Option.some.injEq] at h
      obtain ⟨hmem, hle, hall⟩ := pickMinCost_foldl U rest
      subst h
      constructor
      · rcases hmem with h | h
        · rw [h]; exact List.mem_cons_self U rest
        · exact List.mem_cons_of_mem U h
      · intro T hT
        rcases List.mem_cons.1 hT with h | h
        · subst h; exact hle
        · exact hall T h

theorem pickMinCost_eq_none_iff (l : List Pool) : pickMinCost l = none ↔ l = [] := by
  cases l <;> simp [pickMinCost]

theorem nil_mem_subsetsOf (pool : Pool) : [] ∈ subsetsOf pool := by
  induction pool with
  | nil => simp [subsetsOf]
  | cons v rest ih => exact List.mem_append_right _ ih

theorem sublist_of_mem_subsetsOf {S pool : Pool} (h : S ∈ subsetsOf pool) :
    S.Sublist pool := by
  induction pool generalizing S with
  | nil =>
      simp only [subsetsOf, List.mem_singleton] at h
      subst h
      exact List.Sublist.refl []
  | cons v rest ih =>
      simp only [subsetsOf, List.mem_append, List.mem_map] at h
      rcases h with ⟨T, hT, rfl⟩ | h
      · exact (ih hT).cons₂ v
      · exact (ih h).cons v

theorem mem_subsetsOf_self (pool : Pool) : pool ∈ subsetsOf pool := by
  induction pool with
  | nil => simp [subsetsOf]
  | cons v rest ih =>
      simp only [subsetsOf, List.mem_append, List.mem_map]
      exact Or.inl ⟨rest, ih, rfl⟩

/-! ### Lemmas for the Pareto shadow-price pass -/

theorem setShadow_self (p : ParetoPoint) (v : Option ℚ)
    (hp : p.shadow_carbon_price = v) : { p with shadow_carbon_price := v } = p := by
  cases p
  cases hp
  rfl

theorem shadowSpecAtG_cons_succ_feasible (prev : Option (ℚ × ℚ)) (p : ParetoPoint)
    (rest : List ParetoPoint) (i : ℕ) (hf : p.feasible = true) :
    shadowSpecAtG prev (p :: rest) (i + 1) =
      shadowSpecAtG (some (p.total_co2e_tonnes, p.total_cost_usd)) rest i := by
  simp only [shadowSpecAtG, List.getElem?_cons_succ, List.take_succ_cons,
    lastFeasible, hf, if_true]
  cases hlf : lastFeasible (rest.take i) <;> simp [hlf]

theorem shadowSpecAtG_cons_succ_not_feasible (prev : Option (ℚ × ℚ))
    (p : ParetoPoint) (rest : List ParetoPoint) (i : ℕ) (hf : p.feasible = false) :
    shadowSpecAtG prev (p :: rest) (i + 1) = shadowSpecAtG prev rest i := by
  simp only [shadowSpecAtG, List.getElem?_cons_succ, List.take_succ_cons,
    lastFeasible, hf]
  simp

theorem shadowPass_getElem (points : List ParetoPoint) (prev : Option ParetoPoint)
    (h : ∀ p ∈ points, p.shadow_carbon_price = none) (i : ℕ) :
    (shadowPass prev points)[i]? =
      (points[i]?).map (fun p =>
        { p with shadow_carbon_price := (shadowSpecAtG
            (prev.map (fun q => (q.total_co2e_tonnes, q.total_cost_usd)))
            points i) }) := by
  induction points generalizing prev i with
  | nil => simp [shadowPass]
  | cons p rest ih =>
      have hp : p.shadow_carbon_price = none := h p (List.mem_cons_self p rest)
      have hrest : ∀ q ∈ rest, q.shadow_carbon_price = none :=
        fun q hq => h q (List.mem_cons_of_mem p hq)
      by_cases hf : p.feasible = true
      · cases prev with
        | none =>
            rw [show shadowPass none (p :: rest) = p :: shadowPass (some p) rest by
              simp [shadowPass, hf]]
            cases i with
            | zero =>
                simp only [List.getElem?_cons_zero, Option.map_some']
                rw [show shadowSpecAtG (Option.map _ none) (p :: rest) 0 = none by
                  simp [shadowSpecAtG, hf, lastFeasible]]
                rw [setShadow_self p none hp]
            | succ i =>
                simp only [List.getElem?_cons_succ]
                rw [ih (some p) hrest i,
                  show Option.map
                      (fun q : ParetoPoint => (q.total_co2e_tonnes, q.total_cost_usd))
                      none = none from rfl,
                  shadowSpecAtG_cons_succ_feasible none p rest i hf]
                rfl
        | some q =>
            simp only [shadowPass, hf, if_true]
            cases i with
            | zero =>
                have hspec : shadowSpecAtG
                    (some (q.total_co2e_tonnes, q.total_cost_usd))
                    (p :: rest) 0 =
                    (if 0 < q.total_co2e_tonnes - p.total_co2e_tonnes then
                      some ((p.total_cost_usd - q.total_cost_usd) /
                        (q.total_co2e_tonnes - p.total_co2e_tonnes))
                    else none) := by
                  simp [shadowSpecAtG, hf, lastFeasible]
                simp only [List.getElem?_cons_zero, Option.map_some', hspec, hf]
            | succ i =>
                simp only [List.getElem?_cons_succ]
                rw [ih _ hrest i, shadowSpecAtG_cons_succ_feasible _ p rest i hf]
                rfl
      · have hf' : p.feasible = false := by simpa using hf
        rw [show shadowPass prev (p :: rest) = p :: shadowPass prev rest by
          simp [shadowPass, hf']]
        cases i with
        | zero =>
            simp only [List.getElem?_cons_zero, Option.map_some']
            rw [show shadowSpecAtG
                  (prev.map (fun q => (q.total_co2e_tonnes, q.total_cost_usd)))
                  (p :: rest) 0 = p.shadow_carbon_price by
              simp [shadowSpecAtG, hf']]
        | succ i =>
            simp only [List.getElem?_cons_succ]
            rw [ih prev hrest i, shadowSpecAtG_cons_succ_not_feasible _ p rest i hf']

theorem shadowSpecAtG_none (points : List ParetoPoint) (i : ℕ) :
    shadowSpecAtG none points i = shadowSpecAt points i := by
  simp only [shadowSpecAtG, shadowSpecAt]
  cases hpt : points[i]? with
  | none => rfl
  | some p =>
      by_cases hf : p.feasible = true
      · simp only [hf, if_true]
        cases hlf : lastFeasible (points.take i) <;> simp [hlf]
      · have hf' : p.feasible = false := by simpa using hf
        simp [hf']

/-! ## Claims -/

/-- C1: for every vessel pool and parameter set, whenever the underlying MIP
solve terminates with any non-optimal status (any status other than 1), the
return logic of `select_fleet_milp` yields the empty selection and that of
`select_fleet_minmax_milp` yields the empty selection together with `none`.
Both embedded functions are total (the Python code has no raise on this
path), and no partial selection is returned on a non-optimal status. -/
theorem milp_nonoptimal_status_returns_empty (status : Int) (selected : List Int)
    (zval : Option ℚ) (h : status ≠ 1) :
    milpReturn status selected = [] ∧ minmaxReturn status selected zval = ([], none) := by
  constructor <;> simp [milpReturn, minmaxReturn, h]

theorem milp_nonoptimal_status_returns_empty_witness :
    (0 : Int) ≠ 1 ∧
      (milpReturn 0 [7] = [] ∧ minmaxReturn 0 [7] (some 5) = ([], none)) :=
  ⟨by decide, milp_nonoptimal_status_returns_empty 0 [7] (some 5) (by decide)⟩

/-- C3: for every non-empty selection and threshold `t`, the linearised
safety constraint of the selector (`Σ (safety_i - t) ≥ 0`) holds iff the
mean safety rating checked by the Validator is at least `t`: constraint C2
is an exact reformulation of the ratio constraint, not an approximation. -/
theorem safety_linearization_exact (S : Pool) (t : ℚ) (h : S ≠ []) :
    meanSafety S = some (safetySum S / (S.length : ℚ)) ∧
    (0 ≤ safetyDeltaSum t S ↔ t ≤ safetySum S / (S.length : ℚ)) :=
  ⟨meanSafety_of_ne_nil S h, deltaSum_nonneg_iff_mean_ge t S h⟩

theorem safety_linearization_exact_witness :
    ([vA] : Pool) ≠ [] ∧
      (meanSafety [vA] = some (safetySum [vA] / (([vA] : Pool).length : ℚ)) ∧
        (0 ≤ safetyDeltaSum 3 [vA] ↔ 3 ≤ safetySum [vA] / (([vA] : Pool).length : ℚ))) :=
  ⟨by decide, safety_linearization_exact [vA] 3 (by decide)⟩

/-- C6: the scenario cost matrix entry is
`base_cost - embedded_carbon_cost + emissions * scenario_price`; the
carbon-price sweep adjusts each vessel of a fresh copy of the pool by the
same formula (all other fields unchanged) and every sweep point derives its
adjusted pool from the base pool, which is never mutated (the embedding is
a pure map over the base pool at each price). -/
theorem cost_matrix_and_sweep_consistent (hasCC : Bool) (cp : ℚ) (v : Vessel)
    (pool : Pool) (prices : List ℚ) (demand t : ℚ) (i : ℕ) :
    scenarioCost hasCC v cp =
      v.final_cost - (if hasCC then v.carbon_cost else v.co2eq * CARBON_PRICE)
        + v.co2eq * cp ∧
    (adjustFinalCost hasCC cp v).final_cost = scenarioCost hasCC v cp ∧
    (adjustFinalCost hasCC cp v).vessel_id = v.vessel_id ∧
    (adjustFinalCost hasCC cp v).dwt = v.dwt ∧
    (adjustFinalCost hasCC cp v).safety_score = v.safety_score ∧
    (adjustFinalCost hasCC cp v).main_engine_fuel_type = v.main_engine_fuel_type ∧
    (adjustFinalCost hasCC cp v).co2eq = v.co2eq ∧
    adjustPool hasCC cp pool = pool.map (adjustFinalCost hasCC cp) ∧
    (run_carbon_price_sweep hasCC pool prices demand t)[i]? =
      (prices[i]?).map (fun p =>
        (p, select_fleet_milp (adjustPool hasCC p pool) demand t true none)) := by
  refine ⟨rfl, rfl, rfl, rfl, rfl, rfl, rfl, rfl, ?_⟩
  simp [run_carbon_price_sweep]

/-- C7: the robust selector's single safety constraint is built from the
strictest (maximum) `min_avg_safety` across the scenario set; any non-empty
selection satisfying the robust structural constraints therefore meets
every individual scenario's safety floor simultaneously. -/
theorem robust_safety_floor_dominates (pool S : Pool) (scen : List Scenario)
    (demand : ℚ) (req : Bool) (hS : S ≠ [])
    (hok : robustStructOk pool scen demand req S = true) :
    ∀ s ∈ scen, s.min_avg_safety ≤ robustSafetyFloor scen ∧
      s.min_avg_safety ≤ safetySum S / (S.length : ℚ) := by
  intro s hmem
  have h1 := robustSafetyFloor_ge hmem
  have hdelta : 0 ≤ safetyDeltaSum (robustSafetyFloor scen) S := by
    simp only [robustStructOk, Bool.and_eq_true, decide_eq_true_eq] at hok
    exact hok.1.2
  have hmean := (deltaSum_nonneg_iff_mean_ge (robustSafetyFloor scen) S hS).1 hdelta
  exact ⟨h1, le_trans h1 hmean⟩

theorem robust_safety_floor_dominates_witness :
    Scenario.min_avg_safety ⟨"stress", 160, 4⟩ ≤ robustSafetyFloor scen2 ∧
      Scenario.min_avg_safety ⟨"stress", 160, 4⟩ ≤
        safetySum [vNeg] / (([vNeg] : Pool).length : ℚ) :=
  robust_safety_floor_dominates [vNeg] [vNeg] scen2 50 false (by decide)
    (by norm_num [robustStructOk, dwtSum, safetyDeltaSum, robustSafetyFloor, scen2,
      vNeg]) ⟨"stress", 160, 4⟩ (by decide)

/-- C9: for every pool, selection and parameters, `validate_fleet` returns an
`(ok, violations)` pair where `ok` holds exactly when the capacity, safety
and (if required) fuel-diversity checks all pass, with exactly one
human-readable message per failed check.  The embedding is a total function:
no code path of the source raises, including for selections whose ids are
unknown to the pool (they simply match no rows). -/
theorem validate_fleet_contract (pool : Pool) (ids : List Int) (demand t : ℚ)
    (req : Bool) :
    ((validate_fleet pool ids demand t req).1 = true ↔
      (demand ≤ dwtSum (poolSubset pool ids) ∧
       (∀ m, meanSafety (poolSubset pool ids) = some m → t ≤ m) ∧
       (req = true → missingFuelTypes pool ids = []))) ∧
    (validate_fleet pool ids demand t req).2.length =
      ((if capacityViolated pool ids demand then 1 else 0) +
       (if safetyViolated pool ids t then 1 else 0) +
       (if req && fuelViolated pool ids then 1 else 0)) := by
  have hcap : demand ≤ dwtSum (poolSubset pool ids) ↔
      capacityViolated pool ids demand = false := by
    simp [capacityViolated, not_lt]
  have hsaf : (∀ m, meanSafety (poolSubset pool ids) = some m → t ≤ m) ↔
      safetyViolated pool ids t = false := by
    cases h : meanSafety (poolSubset pool ids) with
    | none => simp [safetyViolated, h]
    | some m => simp [safetyViolated, h, not_lt]
  have hfuel : (req = true → missingFuelTypes pool ids = []) ↔
      (req && fuelViolated pool ids) = false := by
    cases req
    · simp
    · simp [fuelViolated, List.isEmpty_iff]
  constructor
  · rw [hcap, hsaf, hfuel]
    cases hc : capacityViolated pool ids demand <;>
      cases hs : safetyViolated pool ids t <;>
      cases hf : (req && fuelViolated pool ids) <;>
      simp [validate_fleet, hc, hs, hf]
  · cases hc : capacityViolated pool ids demand <;>
      cases hs : safetyViolated pool ids t <;>
      cases hf : (req && fuelViolated pool ids) <;>
      simp [validate_fleet, hc, hs, hf]

/-- C2 counterexample: the claim asserts that on every feasible robust solve
the reported `Z` is within 1.0 of the maximum scenario cost of the selected
fleet.  The solver variable is declared as `LpVariable("Z", 0, None)`, i.e.
with lower bound 0, so when every scenario cost of the optimal fleet is
negative (possible because the cost matrix subtracts the embedded carbon
cost before adding `CO2eq * scenario_price`, here with scenario price 0),
the optimal `Z` is clamped at 0 while the worst-case fleet cost is -10:
an optimal solve whose `Z` differs from the true worst case by 10. -/
theorem robust_worst_case_tolerance_counterexample :
    IsOptimalRobust true cePool ceScen 50 false cePool 0 ∧
    ¬(|0 - worstScenarioCost true cePool ceScen| ≤ 1) := by
  have hcost : fleetScenarioCost true cePool ⟨"zero_price", 0, 3⟩ = -10 := by
    norm_num [fleetScenarioCost, scenarioCost, originalCarbon, cePool, vNeg]
  have hworst : worstScenarioCost true cePool ceScen = -10 := by
    simp [worstScenarioCost, ceScen, hcost]
  constructor
  · constructor
    · refine ⟨mem_subsetsOf_self cePool, ?_, le_refl 0, ?_⟩
      · norm_num [robustStructOk, dwtSum, safetyDeltaSum, robustSafetyFloor,
          ceScen, cePool, vNeg]
      · intro s hs
        have : s = ⟨"zero_price", 0, 3⟩ := by
          simpa [ceScen] using hs
        rw [this, hcost]
        norm_num
    · intro S' Z' h
      exact h.2.2.1
  · rw [hworst]
    norm_num

/-- C2 amended: for every non-empty scenario set, every optimal outcome
`(S, Z)` of the robust MILP satisfies `Z = max 0 (worst-case scenario cost
of S)` exactly; in particular `Z` equals the maximum scenario cost of the
selected fleet (within any tolerance) whenever that maximum is
non-negative, but is clamped to 0 by the variable's lower bound when it is
negative. -/
theorem robust_worst_case_value (hasCC : Bool) (pool : Pool)
    (scen : List Scenario) (demand : ℚ) (req : Bool) (S : Pool) (Z : ℚ)
    (hs : scen ≠ [])
    (hopt : IsOptimalRobust hasCC pool scen demand req S Z) :
    Z = max 0 (worstScenarioCost hasCC S scen) := by
  obtain ⟨⟨hsub, hstruct, hZ0, hdom⟩, hmin⟩ := hopt
  have hub : max 0 (worstScenarioCost hasCC S scen) ≤ Z :=
    max_le hZ0 (worstScenarioCost_le hasCC S hs hdom)
  have hfeas : RobustFeasible hasCC pool scen demand req S
      (max 0 (worstScenarioCost hasCC S scen)) := by
    refine ⟨hsub, hstruct, le_max_left _ _, ?_⟩
    intro s hmem
    exact le_trans (worstScenarioCost_ge hasCC S hmem) (le_max_right _ _)
  exact le_antisymm (hmin S _ hfeas) hub

theorem robust_worst_case_value_witness :
    ceScen ≠ [] ∧ (0 : ℚ) = max 0 (worstScenarioCost true cePool ceScen) := by
  have hcost : fleetScenarioCost true cePool ⟨"zero_price", 0, 3⟩ = -10 := by
    norm_num [fleetScenarioCost, scenarioCost, originalCarbon, cePool, vNeg]
  refine ⟨by decide, ?_⟩
  refine robust_worst_case_value true cePool ceScen 50 false cePool 0 (by decide)
    ⟨⟨mem_subsetsOf_self cePool, ?_, le_refl 0, ?_⟩, ?_⟩
  · norm_num [robustStructOk, dwtSum, safetyDeltaSum, robustSafetyFloor,
      ceScen, cePool, vNeg]
  · intro s hs
    have : s = ⟨"zero_price", 0, 3⟩ := by
      simpa [ceScen] using hs
    rw [this, hcost]
    norm_num
  · intro S' Z' h
    exact h.2.2.1

/-- C4 counterexample: the claim asserts that a post-solve validation failure
aborts the computation.  `select_fleet_milp` itself never calls
`validate_fleet` (optimization.py 116-175 contains no validation), and the
CLI caller validates the solver's returned selection but only prints the
result: at pool `[vA]` (100 DWT) with demand 1000 and a solver-returned
selection `[1]`, validation fails on capacity, yet the post-solve flow
produces a reported (non-exit) outcome rather than aborting. -/
theorem validation_failure_not_fatal_counterexample :
    (validate_fleet [vA] [1] 1000 3 true).1 = false ∧
    (mainPostSolve [vA] 1000 3 [1]).isExit = false := by
  have hcap : capacityViolated [vA] [1] 1000 = true := by
    norm_num [capacityViolated, poolSubset, dwtSum, vA]
  constructor
  · simp [validate_fleet, hcap]
  · simp [mainPostSolve, RunOutcome.isExit]

/-- C4 amended: on a successful solve the selector returns the extracted
selection without re-validating it; the CLI caller then validates the
returned selection against C1-C3 (with diversity required) and reports the
outcome — selection, ok flag and violation messages — continuing the run
regardless; only an empty (infeasible) selection terminates the run
(exit code 1). -/
theorem main_reports_validation_result (pool : Pool) (demand t : ℚ)
    (ids : List Int) (h : ids ≠ []) :
    mainPostSolve pool demand t ids =
      RunOutcome.reported ids (validate_fleet pool ids demand t true).1
        (validate_fleet pool ids demand t true).2 := by
  cases ids with
  | nil => exact absurd rfl h
  | cons a l => rfl

theorem main_reports_validation_result_witness :
    ([1] : List Int) ≠ [] ∧
      mainPostSolve [vA] 1000 3 [1] =
        RunOutcome.reported [1] (validate_fleet [vA] [1] 1000 3 true).1
          (validate_fleet [vA] [1] 1000 3 true).2 :=
  ⟨by decide, main_reports_validation_result [vA] 1000 3 [1] (by decide)⟩

/-- C5 counterexample: the claim asserts that for zero demand without
diversity the selector returns a feasible outcome *distinguishable* from
the infeasible outcome.  On the two-vessel pool with positive costs, the
zero-demand solve is optimal (status 1) with the empty selection, and the
over-demand solve is infeasible (status -1): both return exactly `[]`, the
same value — the trivially feasible empty selection is indistinguishable
from the infeasible result (and `run.py` indeed treats `[]` as
infeasible). -/
theorem zero_demand_result_indistinguishable :
    milpStatus c5Pool 0 1 false none = 1 ∧
    select_fleet_milp c5Pool 0 1 false none = [] ∧
    milpStatus c5Pool 1000000 1 false none = -1 ∧
    select_fleet_milp c5Pool 1000000 1 false none = [] := by
  have h1 : feasibleSubsets c5Pool 0 1 false none = [[vA, vB], [vA], [vB], []] := by
    norm_num [feasibleSubsets, subsetsOf, milpFeasible, dwtSum, safetyDeltaSum,
      c5Pool, vA, vB]
  have h2 : feasibleSubsets c5Pool 1000000 1 false none = [] := by
    norm_num [feasibleSubsets, subsetsOf, milpFeasible, dwtSum, safetyDeltaSum,
      c5Pool, vA, vB]
  have hpick : pickMinCost [[vA, vB], [vA], [vB], []] = some [] := by
    norm_num [pickMinCost, costSum, vA, vB]
  refine ⟨?_, ?_, ?_, ?_⟩
  · simp [milpStatus, h1]
  · simp [select_fleet_milp, milpReturn, milpStatus, milpSolution, selectedSubset,
      h1, hpick, sortIds]
  · simp [milpStatus, h2]
  · simp [select_fleet_milp, milpReturn, milpStatus, milpSolution, selectedSubset,
      h2, pickMinCost]

/-- C5 amended: with zero or negative demand and strictly positive vessel
costs, the exact selector with diversity off returns the empty selection
`[]` — the optimum, but encoded identically to the infeasible outcome; and
whenever the diversity-on solve selects a subset, that subset covers every
fuel type present in the pool and has minimal cost among all feasible
assignments, and the selector returns exactly its sorted vessel ids. -/
theorem select_fleet_trivial_demand (pool : Pool) (demand t : ℚ) (S : Pool)
    (hd : demand ≤ 0) (hc : ∀ v ∈ pool, 0 < v.final_cost) :
    select_fleet_milp pool demand t false none = [] ∧
    (selectedSubset pool demand t true none = some S →
      coversFuelTypes pool S = true ∧
      (∀ T ∈ subsetsOf pool, milpFeasible pool demand t true none T = true →
        costSum S ≤ costSum T) ∧
      select_fleet_milp pool demand t true none = sortIds (S.map Vessel.vessel_id)) := by
  constructor
  · have hnil : milpFeasible pool demand t false none [] = true := by
      simp [milpFeasible, dwtSum, safetyDeltaSum, hd]
    have hmem : [] ∈ feasibleSubsets pool demand t false none :=
      List.mem_filter.2 ⟨nil_mem_subsetsOf pool, hnil⟩
    obtain ⟨S0, hS0⟩ :
        ∃ S0, pickMinCost (feasibleSubsets pool demand t false none) = some S0 := by
      cases h : pickMinCost (feasibleSubsets pool demand t false none) with
      | none =>
          rw [pickMinCost_eq_none_iff] at h
          rw [h] at hmem
          cases hmem
      | some S0 => exact ⟨S0, rfl⟩
    obtain ⟨hS0mem, hS0min⟩ := pickMinCost_correct hS0
    have hS0cost : costSum S0 ≤ 0 := by
      have := hS0min [] hmem
      simpa [costSum] using this
    have hS0nil : S0 = [] := by
      by_contra hne0
      have hsub : S0.Sublist pool :=
        sublist_of_mem_subsetsOf (List.mem_filter.1 hS0mem).1
      have hpos := costSum_pos (fun v hv => hc v (hsub.subset hv)) hne0
      linarith
    have hne : feasibleSubsets pool demand t false none ≠ [] :=
      List.ne_nil_of_mem hmem
    have hstat : milpStatus pool demand t false none = 1 := by
      simp [milpStatus, hne]
    have hsol : milpSolution pool demand t false none = [] := by
      simp [milpSolution, selectedSubset, hS0, hS0nil, sortIds]
    simp [select_fleet_milp, hstat, hsol, milpReturn]
  · intro hsel
    have hsel' : pickMinCost (feasibleSubsets pool demand t true none) = some S := hsel
    obtain ⟨hmem2, hmin2⟩ := pickMinCost_correct hsel'
    have hfeas2 := (List.mem_filter.1 hmem2).2
    refine ⟨?_, ?_, ?_⟩
    · simp only [milpFeasible, Bool.and_eq_true] at hfeas2
      simpa using hfeas2.1.2
    · intro T hT hTfeas
      exact hmin2 T (List.mem_filter.2 ⟨hT, hTfeas⟩)
    · have hne2 : feasibleSubsets pool demand t true none ≠ [] :=
        List.ne_nil_of_mem hmem2
      have hstat2 : milpStatus pool demand t true none = 1 := by
        simp [milpStatus, hne2]
      have hsol2 : milpSolution pool demand t true none =
          sortIds (S.map Vessel.vessel_id) := by
        simp [milpSolution, selectedSubset, hsel']
      simp [select_fleet_milp, hstat2, hsol2, milpReturn]

theorem select_fleet_trivial_demand_witness :
    (0 : ℚ) ≤ 0 ∧
    (select_fleet_milp [vA] 0 1 false none = [] ∧
      (selectedSubset [vA] 0 1 true none = some [vA] →
        coversFuelTypes [vA] [vA] = true ∧
        (∀ T ∈ subsetsOf [vA], milpFeasible [vA] 0 1 true none T = true →
          costSum [vA] ≤ costSum T) ∧
        select_fleet_milp [vA] 0 1 true none = sortIds ([vA].map Vessel.vessel_id))) :=
  ⟨le_refl 0,
    select_fleet_trivial_demand [vA] 0 1 [vA] (le_refl 0) (by norm_num [vA])⟩

/-- C10 counterexample: the claim asserts exactly one violation for every
pool when no selection id occurs in the pool, but with diversity required
the empty matched subset also misses every fuel type present, so the
validator reports two violations (capacity and fuel diversity), not one —
still with ok=False and no exception. -/
theorem unknown_ids_two_violations_counterexample :
    (0 : ℚ) < 50 ∧
    (([vA] : Pool).all (fun v => !([(999 : Int)].contains v.vessel_id))) = true ∧
    (validate_fleet [vA] [999] 50 3 true).1 = false ∧
    (validate_fleet [vA] [999] 50 3 true).2.length = 2 := by
  have hsub : poolSubset [vA] [999] = [] := by decide
  have hcap : capacityViolated [vA] [999] 50 = true := by
    norm_num [capacityViolated, hsub, dwtSum]
  have hsaf : safetyViolated [vA] [999] 3 = false := by
    simp [safetyViolated, hsub, meanSafety]
  have hfuel : fuelViolated [vA] [999] = true := by decide
  refine ⟨by norm_num, by decide, ?_, ?_⟩
  · simp [validate_fleet, hcap]
  · simp [validate_fleet, hcap, hsaf, hfuel]

/-- C10 amended: for every pool with positive demand and a selection none of
whose ids occur in the pool, `validate_fleet` raises no exception (it is
total) and returns ok=False; the capacity check is violated and the safety
check passes vacuously (the pandas mean of the empty matched subset is NaN,
which does not compare below the threshold); with diversity off the
capacity message is the only violation, and with diversity on a
missing-fuel-type violation is additionally reported exactly when the pool
has fuel types. -/
theorem unknown_ids_validation (pool : Pool) (ids : List Int) (demand t : ℚ)
    (hd : 0 < demand) (hids : ∀ v ∈ pool, ids.contains v.vessel_id = false) :
    (validate_fleet pool ids demand t false).1 = false ∧
    (validate_fleet pool ids demand t false).2.length = 1 ∧
    capacityViolated pool ids demand = true ∧
    safetyViolated pool ids t = false ∧
    (validate_fleet pool ids demand t true).2.length =
      1 + (if fuelViolated pool ids then 1 else 0) := by
  have hsub : poolSubset pool ids = [] := by
    rw [poolSubset, List.filter_eq_nil_iff]
    intro v hv
    simpa using hids v hv
  have hcap : capacityViolated pool ids demand = true := by
    simp [capacityViolated, hsub, dwtSum, hd]
  have hsaf : safetyViolated pool ids t = false := by
    simp [safetyViolated, hsub, meanSafety]
  refine ⟨?_, ?_, hcap, hsaf, ?_⟩
  · simp [validate_fleet, hcap]
  · simp [validate_fleet, hcap, hsaf]
  · cases hfv : fuelViolated pool ids <;> simp [validate_fleet, hcap, hsaf, hfv]

theorem unknown_ids_validation_witness :
    (0 : ℚ) < 50 ∧
    ((validate_fleet [vA] [999] 50 3 false).1 = false ∧
     (validate_fleet [vA] [999] 50 3 false).2.length = 1 ∧
     capacityViolated [vA] [999] 50 = true ∧
     safetyViolated [vA] [999] 3 = false ∧
     (validate_fleet [vA] [999] 50 3 true).2.length =
       1 + (if fuelViolated [vA] [999] then 1 else 0)) :=
  ⟨by norm_num, unknown_ids_validation [vA] [999] 50 3 (by norm_num) (by decide)⟩

/-- C8: in the Pareto sweep's shadow-price pass, every row of the output is
the corresponding input row with its shadow price as described by the
specification: infeasible rows and the first feasible row keep `none`; a
later feasible row gets `Δcost / Δemissions_reduction` relative to the
previous feasible row exactly when that reduction is strictly positive and
`none` otherwise — the division is only formed under the strict-positivity
guard, never with a non-positive denominator. -/
theorem pareto_shadow_price_spec (points : List ParetoPoint)
    (h : ∀ p ∈ points, p.shadow_carbon_price = none) (i : ℕ) :
    (shadowPass none points)[i]? =
      (points[i]?).map (fun p =>
        { p with shadow_carbon_price := shadowSpecAt points i }) := by
  have hg := shadowPass_getElem points none h i
  simpa [shadowSpecAtG_none] using hg

theorem pareto_shadow_price_spec_witness :
    (shadowPass none c8Pts)[2]? =
      (c8Pts[2]?).map (fun p =>
        { p with shadow_carbon_price := shadowSpecAt c8Pts 2 }) :=
  pareto_shadow_price_spec c8Pts (by decide) 2

end MaritimeHack
